import Mathlib

/-!
Shallow embedding of the rushttp streaming HTTP request parser
(`src/request.rs`): the character classifier `get_char_type`, the
per-octet state machine of `Parser::parse`, `Parser::build_request`,
and `Request::get_content_length`.  Bytes are modelled as `Nat`,
Rust `String`s as byte lists, and the `HashMap` of headers as an
association list with insert-replace semantics.
-/

/-- The HTTP method enumeration.  Its definition lives outside `src/`
(request.rs imports it from the crate root); the variants are exactly
those referenced by the match in `Parser::parse`'s `Method` state. -/
inductive Method where
  | Options | Get | Post | Put | Delete | Head | Trace | Connect | Patch
deriving DecidableEq

/-- The HTTP protocol-version enumeration.  Its definition lives outside
`src/`; the variants are exactly those referenced by `Parser::parse`'s
`Protocol` state. -/
inductive Protocol where
  | Http10 | Http11
deriving DecidableEq

/-- Character classes produced by `get_char_type`. -/
inductive CharType where
  | Other | Space | Colon | CR | LF
deriving DecidableEq

/-- The parser's lexical states (`enum ParseState` in request.rs). -/
inductive ParseState where
  | Method | URL | Protocol | ProtocolEOL | KeyStart | Key
  | WrappedValue | WrappedValueStart | WrappedValueEOL
  | ValueStart | Value | ValueEOL | FinalEOL
deriving DecidableEq

/-- Map an octet (in US-ASCII) to a character class (`get_char_type`
in request.rs). -/
def get_char_type (b : Nat) : CharType :=
  if b = 0x20 ∨ b = 0x09 then CharType.Space
  else if b = 0x0D then CharType.CR
  else if b = 0x0A then CharType.LF
  else if b = 0x3A then CharType.Colon
  else CharType.Other

/-- UTF-8 continuation byte: `0x80 ..= 0xBF`. -/
def isCont (b : Nat) : Bool :=
  decide (0x80 ≤ b ∧ b ≤ 0xBF)

/-- UTF-8 validity of a byte sequence, as checked by Rust's
`str::from_utf8` / `String::from_utf8`. -/
def utf8Valid : List Nat → Bool
  | [] => true
  | b :: rest =>
    if b ≤ 0x7F then utf8Valid rest
    else if 0xC2 ≤ b ∧ b ≤ 0xDF then
      match rest with
      | b1 :: rest2 => isCont b1 && utf8Valid rest2
      | [] => false
    else if b = 0xE0 then
      match rest with
      | b1 :: b2 :: rest3 =>
        decide (0xA0 ≤ b1 ∧ b1 ≤ 0xBF) && isCont b2 && utf8Valid rest3
      | _ => false
    else if (0xE1 ≤ b ∧ b ≤ 0xEC) ∨ (0xEE ≤ b ∧ b ≤ 0xEF) then
      match rest with
      | b1 :: b2 :: rest3 => isCont b1 && isCont b2 && utf8Valid rest3
      | _ => false
    else if b = 0xED then
      match rest with
      | b1 :: b2 :: rest3 =>
        decide (0x80 ≤ b1 ∧ b1 ≤ 0x9F) && isCont b2 && utf8Valid rest3
      | _ => false
    else if b = 0xF0 then
      match rest with
      | b1 :: b2 :: b3 :: rest4 =>
        decide (0x90 ≤ b1 ∧ b1 ≤ 0xBF) && isCont b2 && isCont b3 && utf8Valid rest4
      | _ => false
    else if 0xF1 ≤ b ∧ b ≤ 0xF3 then
      match rest with
      | b1 :: b2 :: b3 :: rest4 =>
        isCont b1 && isCont b2 && isCont b3 && utf8Valid rest4
      | _ => false
    else if b = 0xF4 then
      match rest with
      | b1 :: b2 :: b3 :: rest4 =>
        decide (0x80 ≤ b1 ∧ b1 ≤ 0x8F) && isCont b2 && isCont b3 && utf8Valid rest4
      | _ => false
    else false

/-- ASCII bytes of a (pure-ASCII) string literal, for readable test inputs. -/
def strBytes (s : String) : List Nat :=
  s.data.map Char.toNat

/-- The decoding-and-dispatch performed in the `Method` state on `Space`:
`str::from_utf8` followed by the nine-armed token match.  `none` covers
both the unknown-token and the non-UTF-8 cases (both produce
`ErrorBadMethod` in the source). -/
def methodFromBytes (t : List Nat) : Option Method :=
  if utf8Valid t then
    if t = [0x4F, 0x50, 0x54, 0x49, 0x4F, 0x4E, 0x53] then some Method.Options
    else if t = [0x47, 0x45, 0x54] then some Method.Get
    else if t = [0x50, 0x4F, 0x53, 0x54] then some Method.Post
    else if t = [0x50, 0x55, 0x54] then some Method.Put
    else if t = [0x44, 0x45, 0x4C, 0x45, 0x54, 0x45] then some Method.Delete
    else if t = [0x48, 0x45, 0x41, 0x44] then some Method.Head
    else if t = [0x54, 0x52, 0x41, 0x43, 0x45] then some Method.Trace
    else if t = [0x43, 0x4F, 0x4E, 0x4E, 0x45, 0x43, 0x54] then some Method.Connect
    else if t = [0x50, 0x41, 0x54, 0x43, 0x48] then some Method.Patch
    else none
  else none

/-- The decoding performed in the `Protocol` state on `CR`/`LF`:
`str::from_utf8` followed by the match on `"HTTP/1.0"` / `"HTTP/1.1"`.
`none` covers both the unknown-token and the non-UTF-8 cases (both
produce `ErrorBadProtocol` in the source). -/
def protocolFromBytes (t : List Nat) : Option Protocol :=
  if utf8Valid t then
    if t = [0x48, 0x54, 0x54, 0x50, 0x2F, 0x31, 0x2E, 0x30] then some Protocol.Http10
    else if t = [0x48, 0x54, 0x54, 0x50, 0x2F, 0x31, 0x2E, 0x31] then some Protocol.Http11
    else none
  else none

/-- Insert into the header map, replacing any existing binding
(`HashMap::insert`). -/
def hmInsert (m : List (List Nat × List Nat)) (k v : List Nat) :
    List (List Nat × List Nat) :=
  match m with
  | [] => [(k, v)]
  | (k', v') :: rest =>
    if k' = k then (k, v) :: rest else (k', v') :: hmInsert rest k v

/-- Lookup in the header map (`HashMap::get`). -/
def hmGet (m : List (List Nat × List Nat)) (k : List Nat) : Option (List Nat) :=
  match m with
  | [] => none
  | (k', v) :: rest => if k' = k then some v else hmGet rest k

/-- An HTTP Request (struct `Request` in request.rs).  `headers` models
the `HashMap<String, String>` as an association list built by
`hmInsert`. -/
structure Request where
  url : List Nat
  method : Method
  protocol : Protocol
  headers : List (List Nat × List Nat)
deriving DecidableEq

/-- One digit of Rust's unsigned integer parse: `checked_mul` by the
radix and `checked_add` of the digit, against `usize::MAX = 2^64 - 1`
on a 64-bit target; a non-digit octet fails. -/
def parseUsizeStep (acc : Option Nat) (d : Nat) : Option Nat :=
  match acc with
  | none => none
  | some v =>
    if 0x30 ≤ d ∧ d ≤ 0x39 then
      if v * 10 + (d - 0x30) < 2 ^ 64 then some (v * 10 + (d - 0x30))
      else none
    else none

/-- Rust's `str::parse::<usize>`: an optional leading `+`, then one or
more ASCII digits, with overflow rejected. -/
def parseUsize (s : List Nat) : Option Nat :=
  match s with
  | [] => none
  | c :: rest =>
    let digits := if c = 0x2B then rest else s
    if digits = [] then none
    else digits.foldl parseUsizeStep (some 0)

/-- The numeric value of a digit string, most significant first. -/
def natOfDigits (ds : List Nat) : Nat :=
  ds.foldl (fun x d => x * 10 + (d - 0x30)) 0

/-- The bytes of the header name `Content-Length`. -/
def contentLengthKey : List Nat := strBytes "Content-Length"

/-- `Request::get_content_length` from request.rs. -/
def Request.get_content_length (r : Request) : Except String Nat :=
  match hmGet r.headers contentLengthKey with
  | some value =>
    match parseUsize value with
    | some v => Except.ok v
    | none => Except.error "Header valid invalid"
  | none => Except.error "Header Not Found"

/-- The parser's internal state (struct `Parser` in request.rs). -/
structure Parser where
  state : ParseState
  temp : List Nat
  url : List Nat
  method : Method
  protocol : Protocol
  headers : List (List Nat × List Nat)
  key : List Nat
deriving DecidableEq

/-- Outcome of one `Parser::parse` call. -/
inductive ParseResult where
  | Error
  | ErrorBadHeader
  | ErrorBadHeaderValue
  | ErrorBadMethod
  | ErrorBadProtocol
  | ErrorBadURL
  | InProgress
  | Complete (req : Request) (n : Nat)
deriving DecidableEq

/-- `Parser::new()`. -/
def Parser.new : Parser :=
  { state := ParseState.Method, temp := [], url := [], method := Method.Get,
    protocol := Protocol.Http10, headers := [], key := [] }

/-- `Parser::build_request`: snapshot the accumulated fields, collapsing
the ordered header list into the map via repeated insertion (the
`drain` of `self.headers` is modelled at the call sites, which clear
the parser's header list). -/
def build_request (p : Parser) : Request :=
  { url := p.url, method := p.method, protocol := p.protocol,
    headers := p.headers.foldl (fun m kv => hmInsert m kv.1 kv.2) [] }

/-- `headers.last_mut()` followed by `push_str`: append `s` to the value
of the last pair. -/
def appendToLast (hs : List (List Nat × List Nat)) (s : List Nat) :
    List (List Nat × List Nat) :=
  match hs with
  | [] => []
  | [(k, v)] => [(k, v ++ s)]
  | h :: rest => h :: appendToLast rest s

/-- Result of processing one octet: continue with an updated parser,
stop with an early-returned error, or stop with a completed request
(the source's `return ParseResult::Complete(self.build_request(), read)`;
the consumed count `read` is attached by the loop).  The parser carried
by `err`/`complete` holds every mutation the source performed before
returning. -/
inductive StepOut where
  | cont (p : Parser)
  | err (p : Parser) (r : ParseResult)
  | complete (p : Parser) (req : Request)
deriving DecidableEq

/-- The body of `Parser::parse`'s per-octet `match self.state { ... }`.
`ct` is `get_char_type c`. -/
def step (p : Parser) (ct : CharType) (c : Nat) : StepOut :=
  match p.state, ct with
  | ParseState.Method, CharType.Other =>
    StepOut.cont { p with temp := p.temp ++ [c] }
  | ParseState.Method, CharType.Space =>
    match methodFromBytes p.temp with
    | some m =>
      StepOut.cont { p with method := m, temp := [], state := ParseState.URL }
    | none => StepOut.err p ParseResult.ErrorBadMethod
  | ParseState.Method, _ => StepOut.err p ParseResult.Error
  | ParseState.URL, CharType.Other =>
    StepOut.cont { p with temp := p.temp ++ [c] }
  | ParseState.URL, CharType.Colon =>
    StepOut.cont { p with temp := p.temp ++ [c] }
  | ParseState.URL, CharType.Space =>
    if utf8Valid p.temp then
      StepOut.cont { p with url := p.temp, temp := [], state := ParseState.Protocol }
    else StepOut.err { p with temp := [] } ParseResult.ErrorBadURL
  | ParseState.URL, _ => StepOut.err p ParseResult.Error
  | ParseState.Protocol, CharType.Other =>
    StepOut.cont { p with temp := p.temp ++ [c] }
  | ParseState.Protocol, CharType.CR =>
    match protocolFromBytes p.temp with
    | some pr =>
      StepOut.cont { p with protocol := pr, temp := [], state := ParseState.ProtocolEOL }
    | none => StepOut.err p ParseResult.ErrorBadProtocol
  | ParseState.Protocol, CharType.LF =>
    match protocolFromBytes p.temp with
    | some pr =>
      StepOut.cont { p with protocol := pr, temp := [], state := ParseState.KeyStart }
    | none => StepOut.err p ParseResult.ErrorBadProtocol
  | ParseState.Protocol, _ => StepOut.err p ParseResult.ErrorBadProtocol
  | ParseState.ProtocolEOL, CharType.LF =>
    StepOut.cont { p with state := ParseState.KeyStart }
  | ParseState.ProtocolEOL, _ => StepOut.err p ParseResult.Error
  | ParseState.KeyStart, CharType.Space =>
    StepOut.cont { p with state := ParseState.WrappedValueStart }
  | ParseState.KeyStart, CharType.LF =>
    StepOut.complete { p with headers := [] } (build_request p)
  | ParseState.KeyStart, CharType.CR =>
    StepOut.cont { p with state := ParseState.FinalEOL }
  | ParseState.KeyStart, CharType.Other =>
    StepOut.cont { p with temp := p.temp ++ [c], state := ParseState.Key }
  | ParseState.KeyStart, CharType.Colon => StepOut.err p ParseResult.Error
  | ParseState.Key, CharType.Other =>
    StepOut.cont { p with temp := p.temp ++ [c] }
  | ParseState.Key, CharType.Colon =>
    if utf8Valid p.temp then
      StepOut.cont { p with key := p.temp, temp := [], state := ParseState.ValueStart }
    else StepOut.err { p with temp := [] } ParseResult.ErrorBadHeader
  | ParseState.Key, _ => StepOut.err p ParseResult.Error
  | ParseState.ValueStart, CharType.Space => StepOut.cont p
  | ParseState.ValueStart, CharType.Other =>
    StepOut.cont { p with temp := p.temp ++ [c], state := ParseState.Value }
  | ParseState.ValueStart, _ => StepOut.err p ParseResult.Error
  | ParseState.Value, CharType.Other =>
    StepOut.cont { p with temp := p.temp ++ [c] }
  | ParseState.Value, CharType.Space =>
    StepOut.cont { p with temp := p.temp ++ [c] }
  | ParseState.Value, CharType.Colon =>
    StepOut.cont { p with temp := p.temp ++ [c] }
  | ParseState.Value, CharType.CR =>
    if utf8Valid p.temp then
      StepOut.cont { p with headers := p.headers ++ [(p.key, p.temp)], temp := [],
                            state := ParseState.ValueEOL }
    else StepOut.err { p with temp := [] } ParseResult.ErrorBadHeaderValue
  | ParseState.Value, CharType.LF =>
    if utf8Valid p.temp then
      StepOut.cont { p with headers := p.headers ++ [(p.key, p.temp)], temp := [],
                            state := ParseState.KeyStart }
    else StepOut.err { p with temp := [] } ParseResult.ErrorBadHeaderValue
  | ParseState.ValueEOL, CharType.LF =>
    StepOut.cont { p with state := ParseState.KeyStart }
  | ParseState.ValueEOL, _ => StepOut.err p ParseResult.Error
  | ParseState.WrappedValueStart, CharType.Space => StepOut.cont p
  | ParseState.WrappedValueStart, CharType.Other =>
    StepOut.cont { p with temp := p.temp ++ [0x20, c], state := ParseState.WrappedValue }
  | ParseState.WrappedValueStart, CharType.Colon =>
    StepOut.cont { p with temp := p.temp ++ [0x20, c], state := ParseState.WrappedValue }
  | ParseState.WrappedValueStart, CharType.CR =>
    StepOut.cont { p with state := ParseState.WrappedValueEOL }
  | ParseState.WrappedValueStart, CharType.LF => StepOut.err p ParseResult.Error
  | ParseState.WrappedValue, CharType.Other =>
    StepOut.cont { p with temp := p.temp ++ [c] }
  | ParseState.WrappedValue, CharType.Colon =>
    StepOut.cont { p with temp := p.temp ++ [c] }
  | ParseState.WrappedValue, CharType.Space =>
    StepOut.cont { p with temp := p.temp ++ [c] }
  | ParseState.WrappedValue, CharType.CR =>
    if utf8Valid p.temp then
      match p.headers with
      | [] => StepOut.err { p with temp := [] } ParseResult.Error
      | _ :: _ =>
        StepOut.cont { p with headers := appendToLast p.headers p.temp, temp := [],
                              state := ParseState.WrappedValueEOL }
    else StepOut.err { p with temp := [] } ParseResult.ErrorBadHeaderValue
  | ParseState.WrappedValue, CharType.LF => StepOut.err p ParseResult.Error
  | ParseState.WrappedValueEOL, CharType.LF =>
    StepOut.cont { p with state := ParseState.KeyStart }
  | ParseState.WrappedValueEOL, _ => StepOut.err p ParseResult.Error
  | ParseState.FinalEOL, CharType.LF =>
    StepOut.complete { p with headers := [] } (build_request p)
  | ParseState.FinalEOL, _ => StepOut.err p ParseResult.Error

/-- The octet loop of `Parser::parse`, with `read` octets already
consumed by this call.  Returns the mutated parser together with the
call's result (`InProgress` when the buffer is exhausted). -/
def parseFrom : Parser → Nat → List Nat → Parser × ParseResult
  | p, _, [] => (p, ParseResult.InProgress)
  | p, read, c :: rest =>
    match step p (get_char_type c) c with
    | StepOut.cont p' => parseFrom p' (read + 1) rest
    | StepOut.err p' r => (p', r)
    | StepOut.complete p' req => (p', ParseResult.Complete req (read + 1))

/-- `Parser::parse`: feed a buffer of octets. -/
def parse (p : Parser) (buffer : List Nat) : Parser × ParseResult :=
  parseFrom p 0 buffer

/-- Feed a list of chunks in order, stopping at the first terminal
outcome (the calling discipline the spec prescribes: a parser is spent
after `Complete` or any error).  `acc` counts octets consumed by earlier
chunks, so a `Complete` reports the summed consumed-byte count. -/
def feedChunks : Parser → Nat → List (List Nat) → ParseResult
  | _, _, [] => ParseResult.InProgress
  | p, acc, c :: cs =>
    match parse p c with
    | (p', ParseResult.InProgress) => feedChunks p' (acc + c.length) cs
    | (_, ParseResult.Complete req n) => ParseResult.Complete req (acc + n)
    | (_, r) => r

/-- Shift the consumed-byte count of a `Complete` result by `s`. -/
def shiftRes (s : Nat) : ParseResult → ParseResult
  | ParseResult.Complete req n => ParseResult.Complete req (n + s)
  | r => r

/-- Whether a result is a `Complete`. -/
def isComplete : ParseResult → Bool
  | ParseResult.Complete _ _ => true
  | _ => false

/-- The nine recognized method tokens, as (byte-string, value) pairs. -/
def methodTable : List (List Nat × Method) :=
  [(strBytes "OPTIONS", Method.Options), (strBytes "GET", Method.Get),
   (strBytes "POST", Method.Post), (strBytes "PUT", Method.Put),
   (strBytes "DELETE", Method.Delete), (strBytes "HEAD", Method.Head),
   (strBytes "TRACE", Method.Trace), (strBytes "CONNECT", Method.Connect),
   (strBytes "PATCH", Method.Patch)]

/-- The two recognized protocol tokens, as (byte-string, value) pairs. -/
def protocolTable : List (List Nat × Protocol) :=
  [(strBytes "HTTP/1.0", Protocol.Http10), (strBytes "HTTP/1.1", Protocol.Http11)]

/-! ## Helper lemmas -/

lemma gct_eq_lf {c : Nat} (h : get_char_type c = CharType.LF) : c = 0x0A := by
  unfold get_char_type at h
  split_ifs at h
  all_goals simp_all

lemma parseFrom_nil (p : Parser) (read : Nat) :
    parseFrom p read [] = (p, ParseResult.InProgress) := rfl

lemma parseFrom_cons (p : Parser) (read c : Nat) (rest : List Nat) :
    parseFrom p read (c :: rest) =
      match step p (get_char_type c) c with
      | StepOut.cont p' => parseFrom p' (read + 1) rest
      | StepOut.err p' r => (p', r)
      | StepOut.complete p' req => (p', ParseResult.Complete req (read + 1)) := rfl

/-- The early error returns of the loop are never `InProgress` and never
`Complete`. -/
lemma step_err_char (p : Parser) (ct : CharType) (c : Nat) (p' : Parser)
    (res : ParseResult) (h : step p ct c = StepOut.err p' res) :
    res ≠ ParseResult.InProgress ∧ ∀ req n, res ≠ ParseResult.Complete req n := by
  obtain ⟨st, tmp, u, m, pr, hs, k⟩ := p
  cases st <;> cases ct <;>
    simp only [step] at h <;>
    (try (repeat' split at h)) <;>
    (try exact StepOut.noConfusion h)
  all_goals
    injection h with h1 h2
  all_goals
    subst h2
  all_goals
    exact ⟨by simp, by simp⟩

/-- A `complete` step happens only on an `LF` and leaves the parser with
a drained header list in state `KeyStart` or `FinalEOL`. -/
lemma step_complete_char (p : Parser) (ct : CharType) (c : Nat) (p' : Parser)
    (req : Request) (h : step p ct c = StepOut.complete p' req) :
    ct = CharType.LF ∧ p'.headers = [] ∧
    (p'.state = ParseState.KeyStart ∨ p'.state = ParseState.FinalEOL) := by
  obtain ⟨st, tmp, u, m, pr, hs, k⟩ := p
  cases st <;> cases ct <;>
    simp only [step] at h <;>
    (try (repeat' split at h)) <;>
    (try exact StepOut.noConfusion h)
  all_goals
    injection h with h1 h2
  all_goals
    subst h1
  all_goals
    exact ⟨rfl, rfl, by simp⟩

lemma shiftRes_zero (res : ParseResult) : shiftRes 0 res = res := by
  cases res <;> simp [shiftRes]

lemma shiftRes_shiftRes (s t : Nat) (res : ParseResult) :
    shiftRes s (shiftRes t res) = shiftRes (t + s) res := by
  cases res <;> simp [shiftRes, Nat.add_assoc]

lemma shiftRes_ne_inprogress (s : Nat) (res : ParseResult) :
    shiftRes s res = ParseResult.InProgress ↔ res = ParseResult.InProgress := by
  cases res <;> simp [shiftRes]

lemma shiftRes_of_not_complete (s : Nat) (res : ParseResult)
    (h : ∀ req n, res ≠ ParseResult.Complete req n) : shiftRes s res = res := by
  cases res <;> simp_all [shiftRes]

/-- Starting the octet count `s` later shifts a `Complete`'s count by
`s` and changes nothing else. -/
lemma parseFrom_shift :
    ∀ (a : List Nat) (p : Parser) (r s : Nat),
      parseFrom p (r + s) a = ((parseFrom p r a).1, shiftRes s (parseFrom p r a).2)
  | [], p, r, s => by simp [parseFrom_nil, shiftRes]
  | c :: rest, p, r, s => by
    rw [parseFrom_cons, parseFrom_cons]
    cases hs : step p (get_char_type c) c with
    | cont p' =>
      have hst : r + s + 1 = (r + 1) + s := by omega
      simpa [hst] using parseFrom_shift rest p' (r + 1) s
    | err p' res =>
      have hne := (step_err_char p (get_char_type c) c p' res hs).2
      simp [shiftRes_of_not_complete s res hne]
    | complete p' req =>
      simp only []
      have : r + s + 1 = r + 1 + s := by omega
      simp [shiftRes, this]

/-- Splitting the buffer: if the first part ends `InProgress`, parsing
the concatenation continues where the first part left off; otherwise
the first part's terminal result stands. -/
lemma parseFrom_append :
    ∀ (a : List Nat) (p : Parser) (read : Nat) (b : List Nat),
      parseFrom p read (a ++ b) =
        if (parseFrom p read a).2 = ParseResult.InProgress then
          parseFrom (parseFrom p read a).1 (read + a.length) b
        else parseFrom p read a
  | [], p, read, b => by simp [parseFrom_nil]
  | c :: rest, p, read, b => by
    rw [List.cons_append, parseFrom_cons, parseFrom_cons]
    cases hs : step p (get_char_type c) c with
    | cont p' =>
      have := parseFrom_append rest p' (read + 1) b
      simp only [this]
      have harith : read + (c :: rest).length = (read + 1) + rest.length := by
        simp; omega
      rw [harith]
    | err p' res =>
      have hne := (step_err_char p (get_char_type c) c p' res hs).1
      simp [hne]
    | complete p' req =>
      simp

/-- Feeding chunks one call at a time equals one shot on the
concatenation, up to shifting the completed count by the octets
consumed before the current call. -/
lemma feedChunks_join :
    ∀ (cs : List (List Nat)) (p : Parser) (acc : Nat),
      feedChunks p acc cs = shiftRes acc (parseFrom p 0 cs.flatten).2
  | [], p, acc => by simp [feedChunks, List.flatten, parseFrom_nil, shiftRes]
  | c :: cs', p, acc => by
    show feedChunks p acc (c :: cs') = shiftRes acc (parseFrom p 0 (c ++ cs'.flatten)).2
    rw [parseFrom_append c p 0 cs'.flatten]
    rcases hpc : parseFrom p 0 c with ⟨p1, r⟩
    have hfeed : feedChunks p acc (c :: cs') =
        match (p1, r) with
        | (p', ParseResult.InProgress) => feedChunks p' (acc + c.length) cs'
        | (_, ParseResult.Complete req n) => ParseResult.Complete req (acc + n)
        | (_, r') => r' := by
      simp [feedChunks, parse, hpc]
    cases r with
    | InProgress =>
      rw [hfeed]
      simp only [hpc]
      have hz : (0 : Nat) + c.length = 0 + c.length := rfl
      rw [show (0 : Nat) + c.length = c.length by omega] at *
      rw [feedChunks_join cs' p1 (acc + c.length)]
      have hshift := parseFrom_shift cs'.flatten p1 0 c.length
      rw [show (0 : Nat) + c.length = c.length by omega] at hshift
      simp [hshift, shiftRes_shiftRes, Nat.add_comm]
    | Complete req n =>
      rw [hfeed]
      simp [hpc, shiftRes, Nat.add_comm]
    | Error => rw [hfeed]; simp [hpc, shiftRes]
    | ErrorBadHeader => rw [hfeed]; simp [hpc, shiftRes]
    | ErrorBadHeaderValue => rw [hfeed]; simp [hpc, shiftRes]
    | ErrorBadMethod => rw [hfeed]; simp [hpc, shiftRes]
    | ErrorBadProtocol => rw [hfeed]; simp [hpc, shiftRes]
    | ErrorBadURL => rw [hfeed]; simp [hpc, shiftRes]

/-- Claim C1: split-invariance of feeding.  For every partition of a
byte sequence into consecutive chunks, feeding the chunks in order to a
fresh parser (stopping at the first terminal outcome, after which the
spec declares the parser spent) yields the same final outcome as one
`parse` call on the whole sequence: the same variant, the same request
on `Complete`, and the same total consumed count, with the per-chunk
counts summed. -/
theorem split_invariance_of_feeding (chunks : List (List Nat)) :
    feedChunks Parser.new 0 chunks = (parse Parser.new chunks.flatten).2 := by
  rw [feedChunks_join, parse, shiftRes_zero]

/-- A `Complete` result counts strictly more than the octets already
read, at most the whole buffer, its last counted octet is the LF, and
it leaves the parser with drained headers in `KeyStart` or `FinalEOL`. -/
lemma parseFrom_complete_inv :
    ∀ (buf : List Nat) (p : Parser) (read : Nat) (p' : Parser) (req : Request)
      (n : Nat), parseFrom p read buf = (p', ParseResult.Complete req n) →
      read < n ∧ n ≤ read + buf.length ∧ buf[n - read - 1]? = some 0x0A ∧
      p'.headers = [] ∧
      (p'.state = ParseState.KeyStart ∨ p'.state = ParseState.FinalEOL)
  | [], p, read, p', req, n => by
    intro h
    simp [parseFrom_nil] at h
  | c :: rest, p, read, p', req, n => by
    intro h
    rw [parseFrom_cons] at h
    cases hs : step p (get_char_type c) c with
    | cont p1 =>
      simp only [hs] at h
      obtain ⟨h1, h2, h3, h4, h5⟩ := parseFrom_complete_inv rest p1 (read + 1) p' req n h
      refine ⟨by omega, by simp only [List.length_cons]; omega, ?_, h4, h5⟩
      have hidx : n - read - 1 = (n - (read + 1) - 1) + 1 := by omega
      rw [hidx]
      simpa using h3
    | err p1 res =>
      simp only [hs] at h
      have hne := (step_err_char p (get_char_type c) c p1 res hs).2
      obtain ⟨-, hres⟩ := Prod.mk.injEq .. ▸ h
      exact absurd hres (hne req n)
    | complete p1 req1 =>
      simp only [hs] at h
      obtain ⟨hct, hhd, hst⟩ := step_complete_char p (get_char_type c) c p1 req1 hs
      have hp1 : p1 = p' := congrArg Prod.fst h
      have hres : ParseResult.Complete req1 (read + 1) = ParseResult.Complete req n :=
        congrArg Prod.snd h
      injection hres with hreq hn
      subst hp1
      refine ⟨by omega, by simp only [List.length_cons]; omega, ?_, hhd, hst⟩
      have hidx : n - read - 1 = 0 := by omega
      rw [hidx]
      simp [gct_eq_lf hct]

/-- Claim C2: on `Complete(request, n_consumed)` the consumed count
satisfies `0 < n_consumed ≤ len(buffer)` and the octet at position
`n_consumed - 1` of the fed buffer is the terminating LF (0x0A). -/
theorem complete_consumed_bounds (p : Parser) (buf : List Nat) (p' : Parser)
    (req : Request) (n : Nat) (h : parse p buf = (p', ParseResult.Complete req n)) :
    0 < n ∧ n ≤ buf.length ∧ buf[n - 1]? = some 0x0A := by
  obtain ⟨h1, h2, h3, -, -⟩ := parseFrom_complete_inv buf p 0 p' req n h
  refine ⟨h1, by omega, ?_⟩
  simpa using h3

/-- Witness for C2 at the request `GET / HTTP/1.1\r\n\r\n`. -/
theorem complete_consumed_bounds_witness :
    0 < 18 ∧ 18 ≤ (strBytes "GET / HTTP/1.1\r\n\r\n").length ∧
      (strBytes "GET / HTTP/1.1\r\n\r\n")[18 - 1]? = some 0x0A :=
  complete_consumed_bounds Parser.new (strBytes "GET / HTTP/1.1\r\n\r\n")
    ⟨ParseState.FinalEOL, [], [0x2F], Method.Get, Protocol.Http11, [], []⟩
    ⟨[0x2F], Method.Get, Protocol.Http11, []⟩ 18 (by decide)

lemma gct_cr : get_char_type 0x0D = CharType.CR := rfl

lemma gct_lf : get_char_type 0x0A = CharType.LF := rfl

lemma gct_sp : get_char_type 0x20 = CharType.Space := rfl

/-- Counterexample to claim C8 as stated: after the call that returns
`Complete` for `GET / HTTP/1.1\r\n\r\n`, feeding one more LF octet to
the same parser instance produces a second `Complete`. -/
theorem complete_twice_counterexample :
    isComplete (parse Parser.new (strBytes "GET / HTTP/1.1\r\n\r\n")).2 = true ∧
    isComplete
      (parse (parse Parser.new (strBytes "GET / HTTP/1.1\r\n\r\n")).1 [0x0A]).2 =
      true :=
  ⟨by decide, by decide⟩

/-- Claim C8 (amended): a call that returns `Complete` leaves the parser
with its accumulated header list drained and in state `KeyStart` or
`FinalEOL`; the at-most-one-`Complete` guarantee holds only under the
spec's calling discipline of dropping the instance after a terminal
outcome, since further calls (undefined behaviour per the spec) can
complete again. -/
theorem complete_drains_instance (p : Parser) (buf : List Nat) (p' : Parser)
    (req : Request) (n : Nat)
    (h : parse p buf = (p', ParseResult.Complete req n)) :
    p'.headers = [] ∧
    (p'.state = ParseState.KeyStart ∨ p'.state = ParseState.FinalEOL) := by
  obtain ⟨-, -, -, h4, h5⟩ := parseFrom_complete_inv buf p 0 p' req n h
  exact ⟨h4, h5⟩

/-- Witness for the amended C8 at the bare-LF request `GET / HTTP/1.1\n\n`. -/
theorem complete_drains_instance_witness :
    (Parser.mk ParseState.KeyStart [] [0x2F] Method.Get Protocol.Http11 [] []).headers
        = [] ∧
    ((Parser.mk ParseState.KeyStart [] [0x2F] Method.Get Protocol.Http11 [] []).state
        = ParseState.KeyStart ∨
      (Parser.mk ParseState.KeyStart [] [0x2F] Method.Get Protocol.Http11 [] []).state
        = ParseState.FinalEOL) :=
  complete_drains_instance Parser.new (strBytes "GET / HTTP/1.1\n\n")
    (Parser.mk ParseState.KeyStart [] [0x2F] Method.Get Protocol.Http11 [] [])
    ⟨[0x2F], Method.Get, Protocol.Http11, []⟩ 16 (by decide)

/-- Counterexample to claim C3 as stated: replacing the CRLF that
terminates a folded continuation line by a lone LF changes the outcome
from `Complete` to `Error`. -/
theorem lf_fold_counterexample :
    isComplete
        (parse Parser.new (strBytes "GET / HTTP/1.1\r\nA: b\r\n c\r\n\r\n")).2 =
      true ∧
    (parse Parser.new (strBytes "GET / HTTP/1.1\r\nA: b\r\n c\n\r\n")).2 =
      ParseResult.Error :=
  ⟨by decide, by decide⟩

/-- Claim C3 (amended): a lone LF is accepted in place of CRLF for the
request-line (protocol) terminator, the header-value terminators and
the blank-line terminator — from any parser state in
`{Protocol, Value, KeyStart}`, processing `CR LF` and processing a lone
`LF` yield the same call result (the removed CR shifting the octet
count by one) — but not for folded continuation lines, where a lone LF
is an error. -/
theorem lf_for_crlf_leniency (p : Parser) (read : Nat) (rest : List Nat)
    (h : p.state = ParseState.Protocol ∨ p.state = ParseState.Value ∨
      p.state = ParseState.KeyStart) :
    (parseFrom p read (0x0D :: 0x0A :: rest)).2 =
      (parseFrom p (read + 1) (0x0A :: rest)).2 := by
  obtain ⟨st, tmp, u, m, pr, hs, k⟩ := p
  rcases h with h | h | h
  all_goals simp only at h
  all_goals subst h
  · cases hm : protocolFromBytes tmp with
    | none => simp [parseFrom_cons, gct_cr, gct_lf, step, hm]
    | some pr' => simp [parseFrom_cons, gct_cr, gct_lf, step, hm]
  · cases hv : utf8Valid tmp with
    | false => simp [parseFrom_cons, gct_cr, gct_lf, step, hv]
    | true => simp [parseFrom_cons, gct_cr, gct_lf, step, hv]
  · simp [parseFrom_cons, gct_cr, gct_lf, step, build_request]

/-- Witness for the amended C3: from `KeyStart` (the blank-line
position) a `CR LF` and a lone `LF` give the same result. -/
theorem lf_for_crlf_leniency_witness :
    (parseFrom (Parser.mk ParseState.KeyStart [] [] Method.Get Protocol.Http10 [] [])
        0 (0x0D :: 0x0A :: [])).2 =
      (parseFrom (Parser.mk ParseState.KeyStart [] [] Method.Get Protocol.Http10 [] [])
        (0 + 1) (0x0A :: [])).2 :=
  lf_for_crlf_leniency
    (Parser.mk ParseState.KeyStart [] [] Method.Get Protocol.Http10 [] []) 0 []
    (by decide)

set_option maxHeartbeats 1000000 in
/-- `methodFromBytes` recognizes exactly the nine tokens of
`methodTable`. -/
lemma methodFromBytes_iff (t : List Nat) (m : Method) :
    methodFromBytes t = some m ↔ (t, m) ∈ methodTable := by
  constructor
  · intro h
    unfold methodFromBytes at h
    split_ifs at h
    all_goals first
      | exact Option.noConfusion h
      | (injection h with h'; subst h'; subst_vars; decide)
  · intro h
    have hall : ∀ q ∈ methodTable, methodFromBytes q.1 = some q.2 := by decide
    exact hall (t, m) h

set_option maxHeartbeats 1000000 in
/-- `protocolFromBytes` recognizes exactly the two tokens of
`protocolTable`. -/
lemma protocolFromBytes_iff (t : List Nat) (pr : Protocol) :
    protocolFromBytes t = some pr ↔ (t, pr) ∈ protocolTable := by
  constructor
  · intro h
    unfold protocolFromBytes at h
    split_ifs at h
    all_goals first
      | exact Option.noConfusion h
      | (injection h with h'; subst h'; subst_vars; decide)
  · intro h
    have hall : ∀ q ∈ protocolTable, protocolFromBytes q.1 = some q.2 := by decide
    exact hall (t, pr) h

/-- Claim C4: in the `Method` state any Space-class octet (SP 0x20 or
HT 0x09) decodes the scratch as the method token; exactly the nine
tokens of `methodTable` are mapped to their method values, and every
other scratch content (non-UTF-8 included) yields `ErrorBadMethod`,
with the parser left untouched by the early return. -/
theorem method_token_dispatch :
    (∀ t m, methodFromBytes t = some m ↔ (t, m) ∈ methodTable) ∧
    ∀ p : Parser, p.state = ParseState.Method →
      ∀ sp, get_char_type sp = CharType.Space →
        (∀ m, methodFromBytes p.temp = some m →
          parse p [sp] =
            ({ p with method := m, temp := [], state := ParseState.URL },
              ParseResult.InProgress)) ∧
        (methodFromBytes p.temp = none →
          parse p [sp] = (p, ParseResult.ErrorBadMethod)) := by
  refine ⟨methodFromBytes_iff, ?_⟩
  intro p hst sp hsp
  obtain ⟨st, tmp, u, m0, pr, hs, k⟩ := p
  simp only at hst
  subst hst
  constructor
  · intro m hm
    simp [parse, parseFrom_cons, parseFrom_nil, hsp, step, hm]
  · intro hnone
    simp [parse, parseFrom_cons, hsp, step, hnone]

/-- Witness for C4: a `PATCH` token is decoded on a terminating
horizontal tab (the other octet of the Space class). -/
theorem method_token_dispatch_witness :
    parse (Parser.mk ParseState.Method (strBytes "PATCH") [] Method.Get
        Protocol.Http10 [] []) [0x09] =
      (Parser.mk ParseState.URL [] [] Method.Patch Protocol.Http10 [] [],
        ParseResult.InProgress) :=
  ((method_token_dispatch.2
    (Parser.mk ParseState.Method (strBytes "PATCH") [] Method.Get
      Protocol.Http10 [] []) rfl) 0x09 (by decide)).1 Method.Patch (by decide)

/-- Claim C5: in the `Protocol` state, CR decodes the scratch — exactly
`HTTP/1.0` and `HTTP/1.1` are recognized, anything else (non-UTF-8
included) yields `ErrorBadProtocol` — and moves to `ProtocolEOL`; a
bare LF performs the same decode and check but transitions directly to
`KeyStart`, skipping `ProtocolEOL`. -/
theorem protocol_token_dispatch :
    (∀ t pr, protocolFromBytes t = some pr ↔ (t, pr) ∈ protocolTable) ∧
    ∀ p : Parser, p.state = ParseState.Protocol →
      (∀ pr, protocolFromBytes p.temp = some pr →
        parse p [0x0D] =
          ({ p with protocol := pr, temp := [], state := ParseState.ProtocolEOL },
            ParseResult.InProgress) ∧
        parse p [0x0A] =
          ({ p with protocol := pr, temp := [], state := ParseState.KeyStart },
            ParseResult.InProgress)) ∧
      (protocolFromBytes p.temp = none →
        parse p [0x0D] = (p, ParseResult.ErrorBadProtocol) ∧
        parse p [0x0A] = (p, ParseResult.ErrorBadProtocol)) := by
  refine ⟨protocolFromBytes_iff, ?_⟩
  intro p hst
  obtain ⟨st, tmp, u, m0, pr0, hs, k⟩ := p
  simp only at hst
  subst hst
  constructor
  · intro pr hpr
    constructor
    · simp [parse, parseFrom_cons, parseFrom_nil, gct_cr, step, hpr]
    · simp [parse, parseFrom_cons, parseFrom_nil, gct_lf, step, hpr]
  · intro hnone
    constructor
    · simp [parse, parseFrom_cons, gct_cr, step, hnone]
    · simp [parse, parseFrom_cons, gct_lf, step, hnone]

/-- Witness for C5: the token `HTTP/1.0` is accepted on CR and on a
bare LF. -/
theorem protocol_token_dispatch_witness :
    parse (Parser.mk ParseState.Protocol (strBytes "HTTP/1.0") [] Method.Get
        Protocol.Http11 [] []) [0x0D] =
      (Parser.mk ParseState.ProtocolEOL [] [] Method.Get Protocol.Http10 [] [],
        ParseResult.InProgress) ∧
    parse (Parser.mk ParseState.Protocol (strBytes "HTTP/1.0") [] Method.Get
        Protocol.Http11 [] []) [0x0A] =
      (Parser.mk ParseState.KeyStart [] [] Method.Get Protocol.Http10 [] [],
        ParseResult.InProgress) :=
  (protocol_token_dispatch.2
    (Parser.mk ParseState.Protocol (strBytes "HTTP/1.0") [] Method.Get
      Protocol.Http11 [] []) rfl).1 Protocol.Http10 (by decide)

/-- In `WrappedValueStart`, Space-class octets are skipped without any
state change. -/
lemma parseFrom_ws_skip :
    ∀ (ws : List Nat) (p : Parser) (read : Nat) (rest : List Nat),
      p.state = ParseState.WrappedValueStart →
      (∀ b ∈ ws, get_char_type b = CharType.Space) →
      parseFrom p read (ws ++ rest) = parseFrom p (read + ws.length) rest
  | [], p, read, rest => by
    intro _ _
    simp
  | w :: ws', p, read, rest => by
    intro hst hws
    rw [List.cons_append, parseFrom_cons]
    have hw : get_char_type w = CharType.Space := hws w (by simp)
    have hstep : step p (get_char_type w) w = StepOut.cont p := by
      unfold step
      rw [hst, hw]
    simp only [hstep]
    rw [parseFrom_ws_skip ws' p (read + 1) rest hst
      (fun b hb => hws b (by simp [hb]))]
    have : read + (w :: ws').length = read + 1 + ws'.length := by
      simp only [List.length_cons]
      omega
    rw [this]

/-- In `WrappedValue`, Other/Colon/Space octets are pushed onto the
scratch without any state change. -/
lemma parseFrom_wv_accum :
    ∀ (content : List Nat) (p : Parser) (read : Nat) (rest : List Nat),
      p.state = ParseState.WrappedValue →
      (∀ b ∈ content, get_char_type b = CharType.Other ∨
        get_char_type b = CharType.Colon ∨ get_char_type b = CharType.Space) →
      parseFrom p read (content ++ rest) =
        parseFrom { p with temp := p.temp ++ content } (read + content.length) rest
  | [], p, read, rest => by
    intro _ _
    simp
  | b :: content', p, read, rest => by
    intro hst hc
    rw [List.cons_append, parseFrom_cons]
    have hb := hc b (by simp)
    have hstep : step p (get_char_type b) b =
        StepOut.cont { p with temp := p.temp ++ [b] } := by
      rcases hb with hb | hb | hb
      all_goals (unfold step; rw [hst, hb])
    simp only [hstep]
    rw [parseFrom_wv_accum content' { p with temp := p.temp ++ [b] } (read + 1) rest
      hst (fun x hx => hc x (by simp [hx]))]
    have h1 : (p.temp ++ [b]) ++ content' = p.temp ++ (b :: content') := by simp
    have h2 : read + 1 + content'.length = read + (b :: content').length := by
      simp only [List.length_cons]
      omega
    simp only [h1, h2]

/-- `appendToLast` on a list ending in `(k, v)` appends to that `v`. -/
lemma appendToLast_concat :
    ∀ (hs : List (List Nat × List Nat)) (k v s : List Nat),
      appendToLast (hs ++ [(k, v)]) s = hs ++ [(k, v ++ s)]
  | [], k, v, s => rfl
  | [h0], k, v, s => rfl
  | h0 :: h1 :: t, k, v, s => by
    have ih := appendToLast_concat (h1 :: t) k v s
    simp only [List.cons_append] at ih ⊢
    rw [appendToLast]
    · rw [ih]
    · intro k1 v1 _ hcontra
      exact List.noConfusion hcontra

/-- Processing a folded continuation line from `KeyStart`: the leading
SP/HT run is absorbed, the first Other/Colon octet is pushed behind a
single 0x20, and the remaining content accumulates, leaving the parser
in `WrappedValue` with scratch `0x20 :: c :: content` just before the
terminating CR. -/
lemma parseFrom_fold_line (p : Parser) (ws : List Nat) (c : Nat)
    (content : List Nat) (read : Nat)
    (hstate : p.state = ParseState.KeyStart) (htemp : p.temp = [])
    (hws : ws ≠ [])
    (hwssp : ∀ b ∈ ws, get_char_type b = CharType.Space)
    (hc : get_char_type c = CharType.Other ∨ get_char_type c = CharType.Colon)
    (hcontent : ∀ b ∈ content, get_char_type b = CharType.Other ∨
      get_char_type b = CharType.Colon ∨ get_char_type b = CharType.Space) :
    parseFrom p read (ws ++ c :: (content ++ [0x0D])) =
      parseFrom
        { p with temp := 0x20 :: c :: content, state := ParseState.WrappedValue }
        (read + ws.length + 1 + content.length) [0x0D] := by
  obtain ⟨st, tmp, u, m0, pr0, hs0, k0⟩ := p
  simp only at hstate htemp
  subst hstate htemp
  rcases ws with _ | ⟨w, ws'⟩
  · exact absurd rfl hws
  have hw : get_char_type w = CharType.Space := hwssp w (by simp)
  have hstep : step (Parser.mk ParseState.KeyStart [] u m0 pr0 hs0 k0)
      (get_char_type w) w =
      StepOut.cont (Parser.mk ParseState.WrappedValueStart [] u m0 pr0 hs0 k0) := by
    unfold step
    rw [hw]
  conv_lhs => rw [List.cons_append, parseFrom_cons]
  simp only [hstep]
  rw [parseFrom_ws_skip ws' _ (read + 1) _ rfl (fun b hb => hwssp b (by simp [hb]))]
  have hstep2 : step (Parser.mk ParseState.WrappedValueStart [] u m0 pr0 hs0 k0)
      (get_char_type c) c =
      StepOut.cont (Parser.mk ParseState.WrappedValue [0x20, c] u m0 pr0 hs0 k0) := by
    rcases hc with hc | hc
    all_goals (unfold step; rw [hc])
    all_goals rfl
  conv_lhs => rw [parseFrom_cons]
  simp only [hstep2]
  rw [parseFrom_wv_accum content _ (read + 1 + ws'.length + 1) [0x0D] rfl hcontent]
  have h1 : [0x20, c] ++ content = 0x20 :: c :: content := by simp
  have h2 : read + 1 + ws'.length + 1 + content.length =
      read + (w :: ws').length + 1 + content.length := by
    simp only [List.length_cons]
    omega
  simp only [h1, h2]

/-- The CR ending a folded continuation line when a previous header
exists: the scratch (whose first octet is the single inserted 0x20) is
appended to the last header's value. -/
lemma step_wv_cr (p : Parser) (hs' : List (List Nat × List Nat)) (k v : List Nat)
    (hstate : p.state = ParseState.WrappedValue)
    (hheaders : p.headers = hs' ++ [(k, v)])
    (hutf : utf8Valid p.temp = true) :
    step p (get_char_type 0x0D) 0x0D =
      StepOut.cont { p with headers := hs' ++ [(k, v ++ p.temp)], temp := [],
                            state := ParseState.WrappedValueEOL } := by
  obtain ⟨st, tmp, u, m0, pr0, hs0, k0⟩ := p
  simp only at hstate hheaders hutf
  subst hstate hheaders
  rw [gct_cr]
  unfold step
  rcases hs' with _ | ⟨hh, ht⟩
  · simp [hutf, appendToLast]
  · simp only [List.cons_append, hutf, if_true]
    rw [← List.cons_append, appendToLast_concat]
    simp

/-- The CR ending a folded continuation line when no header has been
committed: the source returns the generic `Error` (after the scratch
was already drained by `String::from_utf8`). -/
lemma step_wv_cr_nohdr (p : Parser)
    (hstate : p.state = ParseState.WrappedValue)
    (hheaders : p.headers = [])
    (hutf : utf8Valid p.temp = true) :
    step p (get_char_type 0x0D) 0x0D =
      StepOut.err { p with temp := [] } ParseResult.Error := by
  obtain ⟨st, tmp, u, m0, pr0, hs0, k0⟩ := p
  simp only at hstate hheaders hutf
  subst hstate hheaders
  rw [gct_cr]
  unfold step
  simp [hutf]

/-- Claim C6: a folded continuation line (one or more SP/HT, then
content, then CR) appends its content to the value of the last header
pair in the ordered list, and the separator inserted between the
original value and the continuation content is exactly one 0x20,
regardless of how many SP/HT octets begin the line. -/
theorem folded_value_single_space (p : Parser) (ws : List Nat) (c : Nat)
    (content : List Nat) (hs' : List (List Nat × List Nat)) (k v : List Nat)
    (read : Nat)
    (hstate : p.state = ParseState.KeyStart) (htemp : p.temp = [])
    (hheaders : p.headers = hs' ++ [(k, v)])
    (hws : ws ≠ [])
    (hwssp : ∀ b ∈ ws, get_char_type b = CharType.Space)
    (hc : get_char_type c = CharType.Other ∨ get_char_type c = CharType.Colon)
    (hcontent : ∀ b ∈ content, get_char_type b = CharType.Other ∨
      get_char_type b = CharType.Colon ∨ get_char_type b = CharType.Space)
    (hutf : utf8Valid (0x20 :: c :: content) = true) :
    parseFrom p read (ws ++ c :: (content ++ [0x0D])) =
      ({ p with headers := hs' ++ [(k, v ++ 0x20 :: c :: content)], temp := [],
                state := ParseState.WrappedValueEOL },
        ParseResult.InProgress) := by
  rw [parseFrom_fold_line p ws c content read hstate htemp hws hwssp hc hcontent]
  rw [parseFrom_cons]
  have hcr := step_wv_cr
    { p with temp := 0x20 :: c :: content, state := ParseState.WrappedValue }
    hs' k v rfl hheaders hutf
  simp only [hcr]
  rfl

/-- Witness for C6: SP-HT then `c`, appended to the single header
`(A, b)` with exactly one space inserted. -/
theorem folded_value_single_space_witness :
    parseFrom (Parser.mk ParseState.KeyStart [] [] Method.Get Protocol.Http10
        [([0x41], [0x62])] []) 0 ([0x20, 0x09] ++ 0x63 :: ([] ++ [0x0D])) =
      (Parser.mk ParseState.WrappedValueEOL [] [] Method.Get Protocol.Http10
        [([0x41], [0x62, 0x20, 0x63])] [], ParseResult.InProgress) :=
  folded_value_single_space _ [0x20, 0x09] 0x63 [] [] [0x41] [0x62] 0 rfl rfl rfl
    (by decide) (by decide) (by decide) (by decide) (by decide)

/-- Counterexample to claim C7 as stated: the input
`GET / HTTP/1.1\r\n \r\n\r\n` contains a folded continuation line (the
line ` \r\n` begins with SP) while no header has been committed, yet
parse completes successfully instead of returning `Error`. -/
theorem no_header_fold_counterexample :
    isComplete (parse Parser.new (strBytes "GET / HTTP/1.1\r\n \r\n\r\n")).2 =
      true := by
  decide

/-- Claim C7 (amended): a folded continuation line carrying content
(at least one non-SP/HT octet, here UTF-8-decodable) with no header yet
committed yields `Error` at its terminating CR; a whitespace-only
folded line, by contrast, is skipped without error. -/
theorem folded_line_no_header_error (p : Parser) (ws : List Nat) (c : Nat)
    (content : List Nat) (read : Nat)
    (hstate : p.state = ParseState.KeyStart) (htemp : p.temp = [])
    (hheaders : p.headers = [])
    (hws : ws ≠ [])
    (hwssp : ∀ b ∈ ws, get_char_type b = CharType.Space)
    (hc : get_char_type c = CharType.Other ∨ get_char_type c = CharType.Colon)
    (hcontent : ∀ b ∈ content, get_char_type b = CharType.Other ∨
      get_char_type b = CharType.Colon ∨ get_char_type b = CharType.Space)
    (hutf : utf8Valid (0x20 :: c :: content) = true) :
    (parseFrom p read (ws ++ c :: (content ++ [0x0D]))).2 = ParseResult.Error := by
  rw [parseFrom_fold_line p ws c content read hstate htemp hws hwssp hc hcontent]
  rw [parseFrom_cons]
  have hcr := step_wv_cr_nohdr
    { p with temp := 0x20 :: c :: content, state := ParseState.WrappedValue }
    rfl hheaders hutf
  simp only [hcr]

/-- Witness for the amended C7: a folded line ` xy\r` with no committed
header errors out. -/
theorem folded_line_no_header_error_witness :
    (parseFrom (Parser.mk ParseState.KeyStart [] [] Method.Get Protocol.Http10 [] [])
        0 ([0x20] ++ 0x78 :: ([0x79] ++ [0x0D]))).2 = ParseResult.Error :=
  folded_line_no_header_error _ [0x20] 0x78 [0x79] 0 rfl rfl rfl (by decide)
    (by decide) (by decide) (by decide) (by decide)


lemma foldl_digits_le :
    ∀ (ds : List Nat) (a : Nat),
      a ≤ ds.foldl (fun x d => x * 10 + (d - 0x30)) a
  | [], a => le_refl a
  | d :: rest, a => by
    have h1 : a ≤ a * 10 + (d - 0x30) := by omega
    exact le_trans h1 (foldl_digits_le rest (a * 10 + (d - 0x30)))

/-- On an all-digit string whose value stays below `2^64`, the checked
fold succeeds and computes the value. -/
lemma parseUsize_foldl :
    ∀ (ds : List Nat) (a : Nat),
      (∀ b ∈ ds, 0x30 ≤ b ∧ b ≤ 0x39) →
      ds.foldl (fun x d => x * 10 + (d - 0x30)) a < 2 ^ 64 →
      ds.foldl parseUsizeStep (some a) =
        some (ds.foldl (fun x d => x * 10 + (d - 0x30)) a)
  | [], a => by
    intro _ _
    rfl
  | d :: rest, a => by
    intro hdig hbound
    have hd := hdig d (by simp)
    have hle : a * 10 + (d - 0x30) ≤
        rest.foldl (fun x d => x * 10 + (d - 0x30)) (a * 10 + (d - 0x30)) :=
      foldl_digits_le rest (a * 10 + (d - 0x30))
    simp only [List.foldl_cons] at hbound ⊢
    have hstep : parseUsizeStep (some a) d = some (a * 10 + (d - 0x30)) := by
      have hlt : a * 10 + (d - 0x30) < 2 ^ 64 := lt_of_le_of_lt hle hbound
      show (if 0x30 ≤ d ∧ d ≤ 0x39 then
          if a * 10 + (d - 0x30) < 2 ^ 64 then some (a * 10 + (d - 0x30)) else none
        else none) = some (a * 10 + (d - 0x30))
      rw [if_pos hd, if_pos hlt]
    rw [hstep]
    exact parseUsize_foldl rest (a * 10 + (d - 0x30))
      (fun b hb => hdig b (by simp [hb])) hbound

/-- Claim C9: `get_content_length` returns `Ok(v)` with `v` the
`Content-Length` value parsed as a non-negative integer (`parseUsize`
succeeds on any non-empty digit string whose value fits in `usize`),
the typed error `"Header Not Found"` when the header is absent, and the
typed error `"Header valid invalid"` when the value does not parse. -/
theorem content_length_accessor :
    (∀ r : Request,
      (hmGet r.headers contentLengthKey = none →
        r.get_content_length = Except.error "Header Not Found") ∧
      (∀ s, hmGet r.headers contentLengthKey = some s →
        (∀ v, parseUsize s = some v → r.get_content_length = Except.ok v) ∧
        (parseUsize s = none →
          r.get_content_length = Except.error "Header valid invalid"))) ∧
    (∀ ds, ds ≠ [] → (∀ b ∈ ds, 0x30 ≤ b ∧ b ≤ 0x39) →
      natOfDigits ds < 2 ^ 64 → parseUsize ds = some (natOfDigits ds)) := by
  constructor
  · intro r
    constructor
    · intro h
      simp [Request.get_content_length, h]
    · intro s hs
      constructor
      · intro v hv
        simp [Request.get_content_length, hs, hv]
      · intro hv
        simp [Request.get_content_length, hs, hv]
  · intro ds hne hdig hbound
    rcases ds with _ | ⟨d, rest⟩
    · exact absurd rfl hne
    have hd := hdig d (by simp)
    have hplus : ¬(d = 0x2B) := by omega
    have hstepform : parseUsize (d :: rest) = (d :: rest).foldl parseUsizeStep (some 0) := by
      unfold parseUsize
      simp [hplus]
    rw [hstepform]
    exact parseUsize_foldl (d :: rest) 0 hdig hbound

/-- Witness for C9: a request whose `Content-Length` header holds `12`
yields `Ok 12`. -/
theorem content_length_accessor_witness :
    Request.get_content_length
        ⟨[], Method.Get, Protocol.Http10, [(contentLengthKey, [0x31, 0x32])]⟩ =
      Except.ok 12 :=
  ((content_length_accessor.1
      ⟨[], Method.Get, Protocol.Http10, [(contentLengthKey, [0x31, 0x32])]⟩).2
    [0x31, 0x32] (by decide)).1 12 (by decide)

/-- Claim C10: an empty request-target is accepted.  In
`GET  HTTP/1.1\r\n\r\n` the second Space commits the empty scratch as
the URL; the request completes with `url = ""`, consuming all 17
octets. -/
theorem empty_url_accepted :
    (parse Parser.new (strBytes "GET  HTTP/1.1\r\n\r\n")).2 =
      ParseResult.Complete ⟨[], Method.Get, Protocol.Http11, []⟩ 17 := by
  decide
